import Mathlib

/-!
Verification development for the per-branch product-analysis pipeline of
`src/templates/js/product-analysis.js` (branch filter, product aggregation,
ranking, composite status classification, summary figures, and the
product-detail financial breakdown).

Numbers are modelled by `ℚ`; JS numeric fields that may be `undefined`
become `Option ℚ`, and the `(x || 0)` coercion becomes `Option.getD 0`.
`Array.prototype.sort` is stable by the ECMAScript 2019 specification and
the comparator `(a, b) => b[k] - a[k]` orders by the key descending, so it
is modelled by the stable descending insertion sort
`List.insertionSort (fun a b => key b ≤ key a)`.
`Object.values` enumerates own enumerable string keys in ECMAScript
property order: keys that are array indices (canonical decimal numerals
below 2^32 - 1) first, in ascending numeric order, then the remaining
string keys in insertion order; `jsObjectValues` reproduces this.
The membership test of line 109 is a plain property read, which also
finds the inherited members of `Object.prototype`: for a product named
after one of them no own property is ever created, the accumulation of
lines 118-120 mutates the inherited object, and `Object.values` drops
the product; `addRecord` models this through `objectPrototypeMembers`.
-/

namespace ProductAnalysis

/-- One row of the uploaded data, as consumed by `product-analysis.js`:
fields `Branch`, `Menu`, `Qty`, `Total`, `Margin`, `COGS Total`.
Numeric fields may be missing (`undefined` in JS). -/
structure SalesRecord where
  Branch : String
  Menu : String
  Qty : Option ℚ
  Total : Option ℚ
  Margin : Option ℚ
  cogsTotal : Option ℚ
deriving DecidableEq, Repr

/-- The JS coercion `(x || 0)` applied to a possibly-missing numeric field. -/
def orZero (x : Option ℚ) : ℚ := x.getD 0

/-- Line 94: `allData.filter(item => item.Branch === selectedBranch)`. -/
def branchFilter (allData : List SalesRecord) (selectedBranch : String) :
    List SalesRecord :=
  allData.filter (fun item => item.Branch = selectedBranch)

/-- One value of the `productStats` object (lines 107-121): running sums
for one product of the selected branch. -/
structure ProductStat where
  Menu : String
  Total : ℚ
  Qty : ℚ
  Margin : ℚ
  branch : String
deriving DecidableEq, Repr

/-- The `+=` updates of lines 118-120 applied to the stat whose key
matches the record's `Menu`. -/
def updateStat (item : SalesRecord) (s : ProductStat) : ProductStat :=
  if s.Menu = item.Menu then
    { s with Total := s.Total + orZero item.Total,
             Qty := s.Qty + orZero item.Qty,
             Margin := s.Margin + orZero item.Margin }
  else s

/-- The fresh entry of lines 110-116 with the `+=` of lines 118-120
already applied (`0 + x = x`). -/
def newStat (selectedBranch : String) (item : SalesRecord) : ProductStat :=
  { Menu := item.Menu, Total := orZero item.Total, Qty := orZero item.Qty,
    Margin := orZero item.Margin, branch := selectedBranch }

/-- The member names of `Object.prototype` (ECMAScript, including the
Annex B legacy accessors), which a plain-object property read such as
line 109 finds through the prototype chain when no own property
exists. -/
def objectPrototypeMembers : List String :=
  ["constructor", "hasOwnProperty", "isPrototypeOf", "propertyIsEnumerable",
   "toLocaleString", "toString", "valueOf", "__proto__", "__defineGetter__",
   "__defineSetter__", "__lookupGetter__", "__lookupSetter__"]

/-- One iteration of the `branchData.forEach` of lines 108-121. Line 109
reads `productStats[item.Menu]` and tests it for truthiness: the read is
truthy when an own entry exists, and also when the name is an inherited
`Object.prototype` member (the inherited functions, and for `__proto__`
the prototype object itself, are all truthy). In the first case lines
118-120 accumulate into the own entry; in the second no own property is
ever created and lines 118-120 mutate the inherited object, which
`Object.values` never returns, so the record is dropped from the
aggregation output (modelled by `stats.map (updateStat item)` matching
no entry). Only when the read is falsy do lines 110-116 create a fresh
own entry. -/
def addRecord (selectedBranch : String) (stats : List ProductStat)
    (item : SalesRecord) : List ProductStat :=
  if stats.any (fun s => s.Menu = item.Menu) = true
      ∨ item.Menu ∈ objectPrototypeMembers then
    stats.map (updateStat item)
  else
    stats ++ [newStat selectedBranch item]

/-- Decimal digit value of a character, `none` for a non-digit. -/
def digitVal (c : Char) : Option Nat :=
  if c.toNat < 48 ∨ 57 < c.toNat then none else some (c.toNat - 48)

/-- Value of a (nonempty, all-digit) character sequence in base 10;
`none` as soon as a non-digit appears. -/
def decimalValue (cs : List Char) : Option Nat :=
  cs.foldl
    (fun acc c =>
      match acc, digitVal c with
      | some a, some d => some (a * 10 + d)
      | _, _ => none)
    (some 0)

/-- ECMAScript array-index test: `s` is the canonical decimal numeral
(nonempty, digits only, no leading zero) of some `n < 2^32 - 1`. -/
def arrayIndexOf (s : String) : Option Nat :=
  match s.data with
  | [] => none
  | c :: cs =>
    match decimalValue (c :: cs) with
    | none => none
    | some n =>
      if (c.toNat = 48 → cs = []) ∧ n < 2 ^ 32 - 1 then some n else none

/-- The numeric value under which an array-index key is ordered. -/
def statIndexKey (s : ProductStat) : Nat := (arrayIndexOf s.Menu).getD 0

/-- `Object.values` (line 124) under ECMAScript own-property order:
array-index keys first in ascending numeric order, then the other keys in
insertion order. -/
def jsObjectValues (stats : List ProductStat) : List ProductStat :=
  (stats.filter (fun s => (arrayIndexOf s.Menu).isSome)).insertionSort
      (fun a b => statIndexKey a ≤ statIndexKey b)
    ++ stats.filter (fun s => !(arrayIndexOf s.Menu).isSome)

/-- An element of the `products` array (lines 124-128): the accumulated
sums plus the two derived ratios. -/
structure Product where
  Menu : String
  Total : ℚ
  Qty : ℚ
  Margin : ℚ
  branch : String
  Margin_Percentage : ℚ
  Avg_Price : ℚ
deriving DecidableEq, Repr

/-- Lines 124-128: spread a stat and add
`Margin_Percentage = Total > 0 ? Margin / Total * 100 : 0` and
`Avg_Price = Qty > 0 ? Total / Qty : 0`. -/
def deriveProduct (p : ProductStat) : Product :=
  { Menu := p.Menu, Total := p.Total, Qty := p.Qty, Margin := p.Margin,
    branch := p.branch,
    Margin_Percentage := if 0 < p.Total then p.Margin / p.Total * 100 else 0,
    Avg_Price := if 0 < p.Qty then p.Total / p.Qty else 0 }

/-- The `productStats` object built by lines 107-121, read back through
`Object.values`. -/
def aggregateStats (branchData : List SalesRecord) (selectedBranch : String) :
    List ProductStat :=
  jsObjectValues (branchData.foldl (addRecord selectedBranch) [])

/-- The `products` array of lines 124-128 for the selected branch. -/
def aggregateProducts (allData : List SalesRecord) (selectedBranch : String) :
    List Product :=
  (aggregateStats (branchFilter allData selectedBranch) selectedBranch).map
    deriveProduct

/-- The three possible values of the `sortField` variable. -/
inductive SortField
  | total
  | qty
  | marginPct
deriving DecidableEq, Repr

/-- Lines 130-133: `let sortField = 'Total'; if (sortBy === 'quantity')
sortField = 'Qty'; else if (sortBy === 'margin')
sortField = 'Margin_Percentage';`. -/
def sortFieldOf (sortBy : String) : SortField :=
  if sortBy = "quantity" then SortField.qty
  else if sortBy = "margin" then SortField.marginPct
  else SortField.total

/-- Projection `product[sortField]`. -/
def fieldVal : SortField → Product → ℚ
  | SortField.total, p => p.Total
  | SortField.qty, p => p.Qty
  | SortField.marginPct, p => p.Margin_Percentage

/-- Line 137: `.sort((a, b) => b[sortField] - a[sortField])`, a stable
descending sort on the chosen field. -/
def sortProducts (f : SortField) (products : List Product) : List Product :=
  products.insertionSort (fun a b => fieldVal f b ≤ fieldVal f a)

/-- Lines 136-138: sort descending by the chosen field, then
`.slice(0, count === 'all' ? products.length : parseInt(count))`.
`none` models the `'all'` sentinel. -/
def topProducts (products : List Product) (sortBy : String)
    (count : Option Nat) : List Product :=
  (sortProducts (sortFieldOf sortBy) products).take
    (count.getD products.length)

/-- The sequence of products displayed by `updateTopPerformersTable` for
the given branch, sort key and count (the semantic content of the table
body built in lines 165-202). -/
def updateTopPerformersTable (allData : List SalesRecord)
    (selectedBranch sortBy : String) (count : Option Nat) : List Product :=
  topProducts (aggregateProducts allData selectedBranch) sortBy count

/-- Lines 178-189: the composite status text from the 0-based display
index and the margin percentage. -/
def statusText (index : Nat) (mp : ℚ) : String :=
  if index < 3 ∧ mp > 20 then "Star Product"
  else if index < 10 ∧ mp > 15 then "Good Performer"
  else if mp > 10 then "Average"
  else "Needs Review"

/-- The composite-status rule as the spec words it, on the 1-based rank
position: first matching rule of the priority order wins. -/
def specCompositeStatus (position : Nat) (mp : ℚ) : String :=
  if position ≤ 3 ∧ mp > 20 then "Star Product"
  else if position ≤ 10 ∧ mp > 15 then "Good Performer"
  else if mp > 10 then "Average"
  else "Needs Review"

/-- Line 252: `topProducts.reduce((sum, p) => sum + p.Total, 0)`. -/
def summaryTotalRevenue (tops : List Product) : ℚ :=
  tops.foldl (fun sum p => sum + p.Total) 0

/-- Line 253: `topProducts.reduce((sum, p) => sum + p.Margin_Percentage, 0)
/ topProducts.length`. -/
def summaryAvgMargin (tops : List Product) : ℚ :=
  tops.foldl (fun sum p => sum + p.Margin_Percentage) 0 / (tops.length : ℚ)

/-- Lines 328-330: the records matching both the selected product and the
selected branch. -/
def productDetailData (productName selectedBranch : String)
    (allData : List SalesRecord) : List SalesRecord :=
  allData.filter (fun item =>
    item.Menu = productName ∧ item.Branch = selectedBranch)

/-- One slice handed to the chart collaborator. -/
structure ChartComponent where
  label : String
  value : ℚ
  color : String
deriving DecidableEq, Repr

/-- Lines 377-387: the three financial components, filtered to the
strictly positive ones. -/
def chartComponents (productData : List SalesRecord) : List ChartComponent :=
  let totalRevenue := (productData.map (fun r => orZero r.Total)).sum
  let totalMargin := (productData.map (fun r => orZero r.Margin)).sum
  let totalCogs := (productData.map (fun r => orZero r.cogsTotal)).sum
  ([⟨"Net Revenue", totalRevenue - totalCogs, "#2E8B57"⟩,
    ⟨"Margin (Profit)", totalMargin, "#4CAF50"⟩,
    ⟨"COGS (Cost)", totalCogs, "#FF6B6B"⟩] : List ChartComponent).filter
    (fun c => 0 < c.value)

/-- The three observable outcomes of `createEnhancedProductChart`:
the "No Data Available" message (lines 365-374), the "Invalid Data"
message (lines 389-398), or a pie chart over the positive components. -/
inductive ChartResult
  | noData
  | invalidData
  | chart (components : List ChartComponent)
deriving DecidableEq, Repr

/-- `createEnhancedProductChart` (lines 364-398), reduced to its
observable outcome. -/
def createEnhancedProductChart (productData : List SalesRecord) :
    ChartResult :=
  if productData.length = 0 then ChartResult.noData
  else if (chartComponents productData).length = 0 then
    ChartResult.invalidData
  else ChartResult.chart (chartComponents productData)

/-- The first-seen order of distinct product names in a record sequence,
as §4.2 of the spec words the aggregator's output order. -/
def firstSeenMenus (rs : List SalesRecord) : List String :=
  rs.foldl (fun ms r => if r.Menu ∈ ms then ms else ms ++ [r.Menu]) []

/-! ### Concrete data used to instantiate the theorems -/

/-- The example scenario of §8 of the spec: two branch-A rows and one
branch-B row for product "X". -/
def exampleRecords : List SalesRecord :=
  [⟨"A", "X", some 2, some 100, some 20, none⟩,
   ⟨"A", "X", some 3, some 150, some 30, none⟩,
   ⟨"B", "X", some 1, some 40, some 4, none⟩]

/-- The aggregate the pipeline produces for branch "A" of
`exampleRecords`. -/
def exampleAggregate : Product := ⟨"X", 250, 5, 50, "A", 20, 50⟩

/-- Two branch-A products whose revenue order and quantity order
disagree. -/
def rankData : List SalesRecord :=
  [⟨"A", "Alpha", some 1, some 10, some 1, none⟩,
   ⟨"A", "Beta", some 9, some 5, some 1, none⟩]

/-- Records whose product names are ECMAScript array-index strings,
first seen as "10" then "2". -/
def numericNameData : List SalesRecord :=
  [⟨"A", "10", some 1, some 5, some 1, none⟩,
   ⟨"A", "2", some 1, some 5, some 1, none⟩]

/-- The record of the claim's breakdown example: revenue 1000,
margin -200, COGS 1200. -/
def breakdownRecord : SalesRecord :=
  ⟨"A", "X", some 1, some 1000, some (-200), some 1200⟩

/-- A record whose product name is an inherited `Object.prototype`
member: line 109 sees the inherited `toString` function (truthy), never
creates an own property, and the product vanishes from
`Object.values`. -/
def protoNameData : List SalesRecord :=
  [⟨"A", "toString", some 1, some 100, some 10, none⟩]

/-- A ranked product with revenue 10. -/
def rankedAlpha : Product := ⟨"Alpha", 10, 1, 1, "A", 10, 10⟩

/-- A ranked product with revenue 5. -/
def rankedBeta : Product := ⟨"Beta", 5, 9, 1, "A", 20, 5 / 9⟩

/-- The three-component financial breakdown as the spec words it:
net revenue = total revenue - total COGS, margin, COGS, keeping exactly
the components whose value is strictly greater than 0. -/
def specBreakdown (productData : List SalesRecord) : List ChartComponent :=
  let totalRevenue := (productData.map (fun r => orZero r.Total)).sum
  let totalMargin := (productData.map (fun r => orZero r.Margin)).sum
  let totalCogs := (productData.map (fun r => orZero r.cogsTotal)).sum
  ([⟨"Net Revenue", totalRevenue - totalCogs, "#2E8B57"⟩,
    ⟨"Margin (Profit)", totalMargin, "#4CAF50"⟩,
    ⟨"COGS (Cost)", totalCogs, "#FF6B6B"⟩] : List ChartComponent).filter
    (fun c => 0 < c.value)

/-! ### Stability of the descending insertion sort -/

theorem orderedInsert_filter_key {α β : Type} [LinearOrder β] (key : α → β)
    (q : β) (x : α) (l : List α) :
    (l.orderedInsert (fun a b => key b ≤ key a) x).filter
        (fun z => key z = q)
      = if key x = q then x :: l.filter (fun z => key z = q)
        else l.filter (fun z => key z = q) := by
  induction l with
  | nil =>
    simp only [List.orderedInsert, List.filter]
    by_cases hx : key x = q <;> simp [hx]
  | cons y ys ih =>
    simp only [List.orderedInsert]
    by_cases hyx : key y ≤ key x
    · simp only [if_pos hyx]
      by_cases hx : key x = q <;> simp [List.filter_cons, hx]
    · simp only [if_neg hyx]
      have hlt : key x < key y := lt_of_not_le hyx
      by_cases hx : key x = q
      · have hy : ¬ key y = q := by
          intro hy
          exact absurd (hx ▸ hy ▸ hlt) (lt_irrefl _)
        simp [List.filter_cons, hy, ih, hx]
      · simp [List.filter_cons, ih, hx]

theorem insertionSort_filter_key {α β : Type} [LinearOrder β] (key : α → β)
    (q : β) (l : List α) :
    (l.insertionSort (fun a b => key b ≤ key a)).filter (fun z => key z = q)
      = l.filter (fun z => key z = q) := by
  induction l with
  | nil => rfl
  | cons x xs ih =>
    simp only [List.insertionSort, orderedInsert_filter_key, ih,
      List.filter_cons]
    by_cases hx : key x = q <;> simp [hx]

theorem sortProducts_perm (f : SortField) (ps : List Product) :
    List.Perm (sortProducts f ps) ps :=
  List.perm_insertionSort _ ps

theorem sortProducts_sorted (f : SortField) (ps : List Product) :
    (sortProducts f ps).Pairwise (fun a b => fieldVal f b ≤ fieldVal f a) := by
  haveI : IsTotal Product (fun a b => fieldVal f b ≤ fieldVal f a) :=
    ⟨fun a b => le_total _ _⟩
  haveI : IsTrans Product (fun a b => fieldVal f b ≤ fieldVal f a) :=
    ⟨fun a b c h1 h2 => le_trans h2 h1⟩
  exact List.sorted_insertionSort _ ps

/-! ### Facts about the aggregation fold -/

theorem updateStat_Menu (item : SalesRecord) (s : ProductStat) :
    (updateStat item s).Menu = s.Menu := by
  unfold updateStat
  split <;> rfl

theorem updateStat_of_ne (item : SalesRecord) (s : ProductStat)
    (h : ¬ s.Menu = item.Menu) : updateStat item s = s := by
  simp [updateStat, h]

theorem menus_map_updateStat (item : SalesRecord) (stats : List ProductStat) :
    (stats.map (updateStat item)).map (fun s => s.Menu)
      = stats.map (fun s => s.Menu) := by
  induction stats with
  | nil => rfl
  | cons s rest ih => simp [updateStat_Menu, ih]

theorem any_menu_iff (stats : List ProductStat) (m : String) :
    stats.any (fun s => s.Menu = m) = true
      ↔ m ∈ stats.map (fun s => s.Menu) := by
  simp only [List.any_eq_true, List.mem_map, decide_eq_true_eq]

theorem addRecord_nodup_menus (br : String) (item : SalesRecord)
    (stats : List ProductStat)
    (h : (stats.map (fun s => s.Menu)).Nodup) :
    ((addRecord br stats item).map (fun s => s.Menu)).Nodup := by
  unfold addRecord
  split
  · rwa [menus_map_updateStat]
  · rename_i hcond
    have hany : ¬ stats.any (fun s => s.Menu = item.Menu) = true :=
      fun ha => hcond (Or.inl ha)
    have hnm : ¬ item.Menu ∈ stats.map (fun s => s.Menu) :=
      fun hm => hany ((any_menu_iff stats item.Menu).mpr hm)
    simp [List.nodup_append, h, newStat, hnm]

theorem foldl_addRecord_nodup_menus (br : String) (rs : List SalesRecord) :
    ∀ stats : List ProductStat, (stats.map (fun s => s.Menu)).Nodup →
      ((rs.foldl (addRecord br) stats).map (fun s => s.Menu)).Nodup := by
  induction rs with
  | nil => exact fun stats h => h
  | cons r rest ih =>
    intro stats h
    exact ih _ (addRecord_nodup_menus br r stats h)

theorem sum_map_map_updateStat (f : ProductStat → ℚ) (c : ℚ)
    (item : SalesRecord)
    (hf : ∀ s : ProductStat, s.Menu = item.Menu →
      f (updateStat item s) = f s + c) :
    ∀ stats : List ProductStat, (stats.map (fun s => s.Menu)).Nodup →
      stats.any (fun s => s.Menu = item.Menu) = true →
      ((stats.map (updateStat item)).map f).sum = (stats.map f).sum + c := by
  intro stats
  induction stats with
  | nil => intro _ hany; simp at hany
  | cons s rest ih =>
    intro hnd hany
    by_cases hs : s.Menu = item.Menu
    · have hrest : ∀ t ∈ rest, updateStat item t = t := by
        intro t ht
        refine updateStat_of_ne item t ?_
        intro htm
        have : s.Menu ∈ rest.map (fun s => s.Menu) := by
          rw [hs, ← htm] at *
          exact List.mem_map_of_mem _ ht
        simp only [List.map_cons, List.nodup_cons] at hnd
        exact hnd.1 this
      have hrw : rest.map (updateStat item) = rest := by
        have := List.map_congr_left hrest
        simpa using this
      simp only [List.map_cons, List.sum_cons, hrw, hf s hs]
      ring
    · have hany' : rest.any (fun s => s.Menu = item.Menu) = true := by
        simp only [List.any_cons, Bool.or_eq_true, decide_eq_true_eq] at hany
        rcases hany with h | h
        · exact absurd h hs
        · exact h
      have hnd' : (rest.map (fun s => s.Menu)).Nodup := by
        simp only [List.map_cons, List.nodup_cons] at hnd
        exact hnd.2
      simp only [List.map_cons, List.sum_cons, updateStat_of_ne item s hs,
        ih hnd' hany']
      ring

theorem foldl_addRecord_sum (br : String) (f : ProductStat → ℚ)
    (g : SalesRecord → ℚ)
    (hnew : ∀ item : SalesRecord, f (newStat br item) = g item)
    (hupd : ∀ (item : SalesRecord) (s : ProductStat), s.Menu = item.Menu →
      f (updateStat item s) = f s + g item)
    (rs : List SalesRecord) :
    ∀ stats : List ProductStat,
      (∀ r ∈ rs, ¬ r.Menu ∈ objectPrototypeMembers) →
      (stats.map (fun s => s.Menu)).Nodup →
      ((rs.foldl (addRecord br) stats).map f).sum
        = (stats.map f).sum + (rs.map g).sum := by
  induction rs with
  | nil => intro stats _ _; simp
  | cons r rest ih =>
    intro stats hpm hnd
    simp only [List.foldl_cons, List.map_cons, List.sum_cons]
    rw [ih _ (fun x hx => hpm x (List.mem_cons_of_mem r hx))
      (addRecord_nodup_menus br r stats hnd)]
    unfold addRecord
    split
    · rename_i hcond
      have hany : stats.any (fun s => s.Menu = r.Menu) = true := by
        rcases hcond with ha | hm
        · exact ha
        · exact absurd hm (hpm r (List.mem_cons_self r rest))
      rw [sum_map_map_updateStat f (g r) r (fun s hs => hupd r s hs) stats hnd
        hany]
      ring
    · simp [hnew r]
      ring

/-! ### Facts about the ECMAScript enumeration order -/

theorem jsObjectValues_perm (stats : List ProductStat) :
    List.Perm (jsObjectValues stats) stats := by
  unfold jsObjectValues
  exact ((List.perm_insertionSort _ _).append_right _).trans
    (List.filter_append_perm _ stats)

theorem mem_jsObjectValues (stats : List ProductStat) (s : ProductStat) :
    s ∈ jsObjectValues stats ↔ s ∈ stats :=
  (jsObjectValues_perm stats).mem_iff

theorem jsObjectValues_of_no_index (stats : List ProductStat)
    (h : ∀ s ∈ stats, arrayIndexOf s.Menu = none) :
    jsObjectValues stats = stats := by
  unfold jsObjectValues
  have h1 : stats.filter (fun s => (arrayIndexOf s.Menu).isSome) = [] := by
    rw [List.filter_eq_nil_iff]
    intro s hs
    simp [h s hs]
  have h2 : stats.filter (fun s => !(arrayIndexOf s.Menu).isSome) = stats := by
    rw [List.filter_eq_self]
    intro s hs
    simp [h s hs]
  rw [h1, h2]
  rfl

/-! ### Nonnegativity of the accumulated sums -/

theorem foldl_addRecord_nonneg (br : String) (rs : List SalesRecord)
    (hrs : ∀ r ∈ rs, 0 ≤ orZero r.Total ∧ 0 ≤ orZero r.Qty) :
    ∀ stats : List ProductStat,
      (∀ s ∈ stats, 0 ≤ s.Total ∧ 0 ≤ s.Qty) →
      ∀ s ∈ rs.foldl (addRecord br) stats, 0 ≤ s.Total ∧ 0 ≤ s.Qty := by
  induction rs with
  | nil =>
    intro stats hstats s hs
    exact hstats s hs
  | cons r rest ih =>
    intro stats hstats s hs
    have hr : 0 ≤ orZero r.Total ∧ 0 ≤ orZero r.Qty :=
      hrs r (List.mem_cons_self r rest)
    have hrest : ∀ x ∈ rest, 0 ≤ orZero x.Total ∧ 0 ≤ orZero x.Qty :=
      fun x hx => hrs x (List.mem_cons_of_mem r hx)
    refine ih hrest (addRecord br stats r) ?_ s hs
    intro t ht
    unfold addRecord at ht
    split at ht
    · rcases List.mem_map.mp ht with ⟨u, hu, hut⟩
      rcases hstats u hu with ⟨hu1, hu2⟩
      subst hut
      unfold updateStat
      split
      · exact ⟨add_nonneg hu1 hr.1, add_nonneg hu2 hr.2⟩
      · exact ⟨hu1, hu2⟩
    · rcases List.mem_append.mp ht with hmem | hmem
      · exact hstats t hmem
      · have : t = newStat br r := List.mem_singleton.mp hmem
        subst this
        exact ⟨hr.1, hr.2⟩

/-! ### First-seen order of the aggregation fold -/

theorem foldl_addRecord_menus (br : String) (rs : List SalesRecord) :
    ∀ stats : List ProductStat,
      (∀ r ∈ rs, ¬ r.Menu ∈ objectPrototypeMembers) →
      (rs.foldl (addRecord br) stats).map (fun s => s.Menu)
        = rs.foldl (fun ms r => if r.Menu ∈ ms then ms else ms ++ [r.Menu])
            (stats.map (fun s => s.Menu)) := by
  induction rs with
  | nil => intro stats _; rfl
  | cons r rest ih =>
    intro stats hpm
    simp only [List.foldl_cons]
    rw [ih (addRecord br stats r) (fun x hx => hpm x (List.mem_cons_of_mem r hx))]
    congr 1
    unfold addRecord
    by_cases hmem : r.Menu ∈ stats.map (fun s => s.Menu)
    · rw [if_pos (Or.inl ((any_menu_iff stats r.Menu).mpr hmem))]
      rw [menus_map_updateStat, if_pos hmem]
    · have hcond : ¬ (stats.any (fun s => s.Menu = r.Menu) = true
          ∨ r.Menu ∈ objectPrototypeMembers) := by
        rintro (ha | hm)
        · exact hmem ((any_menu_iff stats r.Menu).mp ha)
        · exact hpm r (List.mem_cons_self r rest) hm
      rw [if_neg hcond, if_neg hmem]
      simp [newStat]

theorem menus_eq_firstSeenMenus (br : String) (rs : List SalesRecord)
    (hpm : ∀ r ∈ rs, ¬ r.Menu ∈ objectPrototypeMembers) :
    (rs.foldl (addRecord br) []).map (fun s => s.Menu) = firstSeenMenus rs := by
  rw [foldl_addRecord_menus br rs [] hpm]
  rfl

theorem mem_foldl_firstSeen (rs : List SalesRecord) (m : String) :
    ∀ acc : List String,
      m ∈ rs.foldl (fun ms r => if r.Menu ∈ ms then ms else ms ++ [r.Menu]) acc →
      m ∈ acc ∨ ∃ r ∈ rs, r.Menu = m := by
  induction rs with
  | nil =>
    intro acc h
    exact Or.inl h
  | cons r rest ih =>
    intro acc h
    simp only [List.foldl_cons] at h
    rcases ih _ h with hacc | ⟨r', hr', hm⟩
    · by_cases hmem : r.Menu ∈ acc
      · rw [if_pos hmem] at hacc
        exact Or.inl hacc
      · rw [if_neg hmem] at hacc
        rcases List.mem_append.mp hacc with h1 | h1
        · exact Or.inl h1
        · exact Or.inr ⟨r, List.mem_cons_self r rest,
            (List.mem_singleton.mp h1).symm⟩
    · exact Or.inr ⟨r', List.mem_cons_of_mem r hr', hm⟩

theorem mem_firstSeenMenus (rs : List SalesRecord) (m : String)
    (h : m ∈ firstSeenMenus rs) : ∃ r ∈ rs, r.Menu = m := by
  rcases mem_foldl_firstSeen rs m [] h with hnil | hex
  · exact absurd hnil (List.not_mem_nil m)
  · exact hex

/-! ### Two small rewriting helpers -/

theorem foldl_add_map {α : Type} (f : α → ℚ) (l : List α) (a : ℚ) :
    l.foldl (fun s x => s + f x) a = a + (l.map f).sum := by
  induction l generalizing a with
  | nil => simp
  | cons x xs ih => simp [ih, add_assoc]

theorem map_deriveProduct_proj (f : Product → ℚ) (g : ProductStat → ℚ)
    (hfg : ∀ s : ProductStat, f (deriveProduct s) = g s)
    (l : List ProductStat) : (l.map deriveProduct).map f = l.map g := by
  rw [List.map_map]
  exact List.map_congr_left (fun s _ => hfg s)

/-! ### The claims -/

/-- C2: for every entry of the ranked, truncated table, the composite
status computed by the code (from the 0-based display index) is exactly
the spec's priority-ordered composite rule on the 1-based position:
position ≤ 3 and margin > 20 gives "Star Product", else position ≤ 10 and
margin > 15 gives "Good Performer", else margin > 10 gives "Average",
else "Needs Review". -/
theorem statusText_matches_spec (pos : Nat) (mp : ℚ) (hpos : 1 ≤ pos) :
    statusText (pos - 1) mp = specCompositeStatus pos mp := by
  have e1 : pos - 1 < 3 ↔ pos ≤ 3 := by omega
  have e2 : pos - 1 < 10 ↔ pos ≤ 10 := by omega
  simp only [statusText, specCompositeStatus, e1, e2]

/-- Witness for C2: an entry at position 2 with margin percentage 25
classifies as "Star Product". -/
theorem statusText_matches_spec_witness :
    1 ≤ 2 ∧ statusText (2 - 1) 25 = specCompositeStatus 2 25
      ∧ specCompositeStatus 2 25 = "Star Product" :=
  ⟨by norm_num, statusText_matches_spec 2 25 (by norm_num),
   by norm_num [specCompositeStatus]⟩

/-- C9: for every record sequence and non-empty branch identifier, the
branch filter returns exactly the subsequence of records whose branch
field equals the identifier: every output record has that branch, the
output is a subsequence of the input, and no matching record is
dropped. -/
theorem branchFilter_exact (allData : List SalesRecord) (b : String)
    (_hb : b ≠ "") :
    (∀ r ∈ branchFilter allData b, r.Branch = b) ∧
    List.Sublist (branchFilter allData b) allData ∧
    (∀ r ∈ allData, r.Branch = b → r ∈ branchFilter allData b) := by
  refine ⟨?_, List.filter_sublist allData, ?_⟩
  · intro r hr
    have h := List.mem_filter.mp hr
    simpa using h.2
  · intro r hr hrb
    exact List.mem_filter.mpr ⟨hr, by simpa using hrb⟩

/-- Witness for C9 at the spec's §8 example data and branch "A". -/
theorem branchFilter_exact_witness :
    ("A" : String) ≠ "" ∧
    ((∀ r ∈ branchFilter exampleRecords "A", r.Branch = "A") ∧
     List.Sublist (branchFilter exampleRecords "A") exampleRecords ∧
     (∀ r ∈ exampleRecords, r.Branch = "A" →
        r ∈ branchFilter exampleRecords "A")) :=
  ⟨by decide, branchFilter_exact exampleRecords "A" (by decide)⟩

/-- C5: for every aggregate collection and every limit `k` smaller than
the number of aggregates, the ranker returns exactly `k` entries, in
non-increasing order of the chosen sort key; with the unbounded sentinel
(`'all'`, modelled as `none`) it returns all entries. -/
theorem ranker_truncation (ps : List Product) (sortBy : String) (k : Nat)
    (hk : k < ps.length) :
    (topProducts ps sortBy (some k)).length = k ∧
    (topProducts ps sortBy (some k)).Pairwise
      (fun a b =>
        fieldVal (sortFieldOf sortBy) b ≤ fieldVal (sortFieldOf sortBy) a) ∧
    List.Perm (topProducts ps sortBy none) ps ∧
    (topProducts ps sortBy none).length = ps.length := by
  have hlen : (sortProducts (sortFieldOf sortBy) ps).length = ps.length :=
    List.length_insertionSort _ ps
  have hfull : topProducts ps sortBy none
      = sortProducts (sortFieldOf sortBy) ps := by
    unfold topProducts
    exact List.take_of_length_le (le_of_eq hlen)
  refine ⟨?_, ?_, ?_, ?_⟩
  · unfold topProducts
    rw [Option.getD_some, List.length_take, hlen]
    omega
  · exact (sortProducts_sorted (sortFieldOf sortBy) ps).sublist
      (List.take_sublist _ _)
  · rw [hfull]
    exact sortProducts_perm _ ps
  · rw [hfull, hlen]

/-- Witness for C5: two concrete products, limit 1. -/
theorem ranker_truncation_witness :
    1 < ([rankedAlpha, rankedBeta] : List Product).length ∧
    ((topProducts [rankedAlpha, rankedBeta] "revenue" (some 1)).length = 1 ∧
     (topProducts [rankedAlpha, rankedBeta] "revenue" (some 1)).Pairwise
       (fun a b =>
         fieldVal (sortFieldOf "revenue") b ≤ fieldVal (sortFieldOf "revenue") a) ∧
     List.Perm (topProducts [rankedAlpha, rankedBeta] "revenue" none)
       [rankedAlpha, rankedBeta] ∧
     (topProducts [rankedAlpha, rankedBeta] "revenue" none).length
       = ([rankedAlpha, rankedBeta] : List Product).length) :=
  ⟨by decide, ranker_truncation [rankedAlpha, rankedBeta] "revenue" 1 (by decide)⟩

/-- C4: the ranker's descending sort is stable: restricted to the entries
whose chosen-sort-key value equals any fixed `q`, the ranked (truncated)
output is an initial segment of the aggregator's output sequence in its
original (insertion) order, for every branch, sort key and limit. -/
theorem ranker_stable_on_ties (allData : List SalesRecord)
    (branch sortBy : String) (count : Option Nat) (q : ℚ) :
    ∃ t : List Product,
      (aggregateProducts allData branch).filter
          (fun p => fieldVal (sortFieldOf sortBy) p = q)
        = (updateTopPerformersTable allData branch sortBy count).filter
            (fun p => fieldVal (sortFieldOf sortBy) p = q) ++ t := by
  set f := sortFieldOf sortBy with hf
  set ps := aggregateProducts allData branch with hps
  set n := count.getD ps.length with hn
  set s := sortProducts f ps with hs
  refine ⟨(s.drop n).filter (fun p => fieldVal f p = q), ?_⟩
  have h1 : ps.filter (fun p => fieldVal f p = q)
      = s.filter (fun p => fieldVal f p = q) :=
    (insertionSort_filter_key (fieldVal f) q ps).symm
  have h2 : updateTopPerformersTable allData branch sortBy count = s.take n :=
    rfl
  rw [h2, h1, ← List.filter_append, List.take_append_drop]

/-- Away from the bug: when no product name of the branch is an
inherited `Object.prototype` member name, aggregation conserves the
summed revenue, quantity and margin. (Not a claim theorem: it bounds the
extent of the conservation defect exhibited below.) -/
theorem aggregate_sum_conservation_of_regular_names
    (allData : List SalesRecord) (branch : String)
    (hpm : ∀ r ∈ branchFilter allData branch,
      ¬ r.Menu ∈ objectPrototypeMembers) :
    ((aggregateProducts allData branch).map (fun p => p.Total)).sum
        = ((branchFilter allData branch).map (fun r => orZero r.Total)).sum ∧
    ((aggregateProducts allData branch).map (fun p => p.Qty)).sum
        = ((branchFilter allData branch).map (fun r => orZero r.Qty)).sum ∧
    ((aggregateProducts allData branch).map (fun p => p.Margin)).sum
        = ((branchFilter allData branch).map (fun r => orZero r.Margin)).sum := by
  have key : ∀ (f : Product → ℚ) (g : ProductStat → ℚ)
      (g' : SalesRecord → ℚ),
      (∀ s : ProductStat, f (deriveProduct s) = g s) →
      (∀ item : SalesRecord, g (newStat branch item) = g' item) →
      (∀ (item : SalesRecord) (s : ProductStat), s.Menu = item.Menu →
        g (updateStat item s) = g s + g' item) →
      ((aggregateProducts allData branch).map f).sum
        = ((branchFilter allData branch).map g').sum := by
    intro f g g' hfg hnew hupd
    unfold aggregateProducts aggregateStats
    rw [map_deriveProduct_proj f g hfg]
    rw [((jsObjectValues_perm _).map g).sum_eq]
    rw [foldl_addRecord_sum branch g g' hnew hupd (branchFilter allData branch)
      [] hpm (by simp)]
    simp
  refine ⟨?_, ?_, ?_⟩
  · exact key (fun p => p.Total) (fun s => s.Total) (fun r => orZero r.Total)
      (fun s => rfl) (fun item => rfl)
      (fun item s hs => by simp [updateStat, hs])
  · exact key (fun p => p.Qty) (fun s => s.Qty) (fun r => orZero r.Qty)
      (fun s => rfl) (fun item => rfl)
      (fun item s hs => by simp [updateStat, hs])
  · exact key (fun p => p.Margin) (fun s => s.Margin) (fun r => orZero r.Margin)
      (fun s => rfl) (fun item => rfl)
      (fun item s hs => by simp [updateStat, hs])

/-- C6 failing input: for a branch-A record whose product name is
"toString", line 109 finds the inherited `Object.prototype.toString`
(truthy), so no own property is ever created and `Object.values`
returns no aggregate at all: the summed aggregate revenue is 0 while
the raw branch revenue is 100 — conservation fails in the program. -/
theorem aggregate_conservation_failing_input :
    aggregateProducts protoNameData "A" = [] ∧
    ((branchFilter protoNameData "A").map (fun r => orZero r.Total)).sum
        = 100 ∧
    ¬ ((aggregateProducts protoNameData "A").map (fun p => p.Total)).sum
        = ((branchFilter protoNameData "A").map (fun r => orZero r.Total)).sum := by
  have pts : ("toString" : String) ∈ objectPrototypeMembers := by decide
  have e1 : aggregateProducts protoNameData "A" = [] := by
    norm_num [protoNameData, aggregateProducts, aggregateStats, branchFilter,
      jsObjectValues, addRecord, updateStat, newStat, orZero, deriveProduct,
      pts, List.insertionSort]
  have e2 : ((branchFilter protoNameData "A").map
      (fun r => orZero r.Total)).sum = 100 := by
    norm_num [protoNameData, branchFilter, orZero]
  refine ⟨e1, e2, ?_⟩
  rw [e1, e2]
  norm_num

/-- C3: for every ProductAggregate produced by the aggregator from
records whose revenue and quantity fields are non-negative (the data
model of §3), the margin percentage equals margin / revenue × 100
whenever the summed revenue is nonzero and is exactly 0 when it is zero;
likewise the average price equals revenue / quantity whenever the summed
quantity is nonzero and is exactly 0 when it is zero. -/
theorem aggregate_ratio_zero_fallback (allData : List SalesRecord)
    (branch : String)
    (hT : ∀ r ∈ allData, 0 ≤ orZero r.Total)
    (hQ : ∀ r ∈ allData, 0 ≤ orZero r.Qty) :
    ∀ p ∈ aggregateProducts allData branch,
      (p.Total ≠ 0 → p.Margin_Percentage = p.Margin / p.Total * 100) ∧
      (p.Total = 0 → p.Margin_Percentage = 0) ∧
      (p.Qty ≠ 0 → p.Avg_Price = p.Total / p.Qty) ∧
      (p.Qty = 0 → p.Avg_Price = 0) := by
  intro p hp
  unfold aggregateProducts at hp
  rcases List.mem_map.mp hp with ⟨s, hs, rfl⟩
  have hsmem : s ∈ (branchFilter allData branch).foldl (addRecord branch) [] := by
    unfold aggregateStats at hs
    exact (mem_jsObjectValues _ s).mp hs
  have hnn : 0 ≤ s.Total ∧ 0 ≤ s.Qty := by
    refine foldl_addRecord_nonneg branch (branchFilter allData branch) ?_ []
      (by simp) s hsmem
    intro r hr
    exact ⟨hT r (List.mem_of_mem_filter hr), hQ r (List.mem_of_mem_filter hr)⟩
  refine ⟨?_, ?_, ?_, ?_⟩
  · intro h
    have hne : s.Total ≠ 0 := by simpa [deriveProduct] using h
    have hpos : 0 < s.Total := lt_of_le_of_ne hnn.1 (Ne.symm hne)
    simp [deriveProduct, hpos]
  · intro h
    have h0 : s.Total = 0 := by simpa [deriveProduct] using h
    simp [deriveProduct, h0]
  · intro h
    have hne : s.Qty ≠ 0 := by simpa [deriveProduct] using h
    have hpos : 0 < s.Qty := lt_of_le_of_ne hnn.2 (Ne.symm hne)
    simp [deriveProduct, hpos]
  · intro h
    have h0 : s.Qty = 0 := by simpa [deriveProduct] using h
    simp [deriveProduct, h0]

/-- Witness for C3 at the spec's §8 example: the branch-A aggregate of
product "X" has margin percentage 50/250×100 and average price 250/5. -/
theorem aggregate_ratio_zero_fallback_witness :
    exampleAggregate.Margin_Percentage
        = exampleAggregate.Margin / exampleAggregate.Total * 100 ∧
    exampleAggregate.Avg_Price = exampleAggregate.Total / exampleAggregate.Qty := by
  have hX : arrayIndexOf "X" = none := by decide
  have hXm : ¬ ("X" : String) ∈ objectPrototypeMembers := by decide
  have n1 : ("B" : String) ≠ "A" := by decide
  have hagg : aggregateProducts exampleRecords "A" = [exampleAggregate] := by
    norm_num [exampleRecords, exampleAggregate, aggregateProducts,
      aggregateStats, branchFilter, jsObjectValues, addRecord, updateStat,
      newStat, orZero, deriveProduct, hX, hXm, n1, List.insertionSort,
      List.orderedInsert]
  have hmem : exampleAggregate ∈ aggregateProducts exampleRecords "A" := by
    rw [hagg]
    exact List.mem_singleton.mpr rfl
  have main := aggregate_ratio_zero_fallback exampleRecords "A"
    (by
      intro r hr
      simp only [exampleRecords, List.mem_cons, List.not_mem_nil, or_false] at hr
      rcases hr with rfl | rfl | rfl <;> norm_num [orZero])
    (by
      intro r hr
      simp only [exampleRecords, List.mem_cons, List.not_mem_nil, or_false] at hr
      rcases hr with rfl | rfl | rfl <;> norm_num [orZero])
    exampleAggregate hmem
  exact ⟨main.1 (by norm_num [exampleAggregate]),
    main.2.2.1 (by norm_num [exampleAggregate])⟩

/-- C7: for every product-detail computation with at least one matching
record, the outcome is never the "no data" signal; the chart handed to
the collaborator carries exactly the strictly-positive components among
net revenue (= revenue - COGS), margin and COGS; and when no component
is positive a distinct "invalid data" signal is produced instead. -/
theorem productDetail_breakdown (productName branch : String)
    (allData : List SalesRecord)
    (h : productDetailData productName branch allData ≠ []) :
    createEnhancedProductChart (productDetailData productName branch allData)
        ≠ ChartResult.noData ∧
    (specBreakdown (productDetailData productName branch allData) ≠ [] →
      createEnhancedProductChart (productDetailData productName branch allData)
        = ChartResult.chart
            (specBreakdown (productDetailData productName branch allData))) ∧
    (specBreakdown (productDetailData productName branch allData) = [] →
      createEnhancedProductChart (productDetailData productName branch allData)
        = ChartResult.invalidData) ∧
    ChartResult.invalidData ≠ ChartResult.noData := by
  set pd := productDetailData productName branch allData with hpd
  have hlen : ¬ pd.length = 0 := by
    simpa [List.length_eq_zero] using h
  have hspec : chartComponents pd = specBreakdown pd := rfl
  refine ⟨?_, ?_, ?_, by simp⟩
  · unfold createEnhancedProductChart
    rw [if_neg hlen]
    split <;> simp
  · intro hne
    unfold createEnhancedProductChart
    rw [if_neg hlen, hspec,
      if_neg (by simpa [List.length_eq_zero] using hne)]
  · intro heq
    unfold createEnhancedProductChart
    rw [if_neg hlen, hspec, if_pos (by simp [heq])]

/-- Witness for C7 at the claim's example (revenue 1000, COGS 1200,
margin -200): the breakdown is exactly the single COGS component, not a
"no data" signal. -/
theorem productDetail_breakdown_witness :
    createEnhancedProductChart (productDetailData "X" "A" [breakdownRecord])
      = ChartResult.chart [⟨"COGS (Cost)", 1200, "#FF6B6B"⟩] := by
  have hne : productDetailData "X" "A" [breakdownRecord] ≠ [] := by
    norm_num [productDetailData, breakdownRecord]
  have hspec : specBreakdown (productDetailData "X" "A" [breakdownRecord])
      = [⟨"COGS (Cost)", 1200, "#FF6B6B"⟩] := by
    norm_num [specBreakdown, productDetailData, breakdownRecord, orZero]
  have happ := (productDetail_breakdown "X" "A" [breakdownRecord] hne).2.1
    (by rw [hspec]; simp)
  rw [happ, hspec]

/-- C10: the summary figures are computed over exactly the displayed
(ranked, truncated) entries: the reported total revenue is the sum of
their revenues and the reported average margin is the unweighted mean of
their margin percentages. -/
theorem summary_over_displayed_entries (allData : List SalesRecord)
    (branch sortBy : String) (count : Option Nat)
    (_hne : updateTopPerformersTable allData branch sortBy count ≠ []) :
    summaryTotalRevenue (updateTopPerformersTable allData branch sortBy count)
        = ((updateTopPerformersTable allData branch sortBy count).map
            (fun p => p.Total)).sum ∧
    summaryAvgMargin (updateTopPerformersTable allData branch sortBy count)
        = ((updateTopPerformersTable allData branch sortBy count).map
            (fun p => p.Margin_Percentage)).sum
          / ((updateTopPerformersTable allData branch sortBy count).length : ℚ) := by
  constructor
  · simp [summaryTotalRevenue, foldl_add_map]
  · simp [summaryAvgMargin, foldl_add_map]

/-- Witness for C10: with limit 1 over two branch-A products, the
summary revenue is the displayed entry's 10, not the branch-wide 15. -/
theorem summary_over_displayed_entries_witness :
    updateTopPerformersTable rankData "A" "revenue" (some 1) ≠ [] ∧
    (summaryTotalRevenue (updateTopPerformersTable rankData "A" "revenue" (some 1))
        = ((updateTopPerformersTable rankData "A" "revenue" (some 1)).map
            (fun p => p.Total)).sum ∧
     summaryAvgMargin (updateTopPerformersTable rankData "A" "revenue" (some 1))
        = ((updateTopPerformersTable rankData "A" "revenue" (some 1)).map
            (fun p => p.Margin_Percentage)).sum
          / ((updateTopPerformersTable rankData "A" "revenue" (some 1)).length : ℚ)) ∧
    summaryTotalRevenue (updateTopPerformersTable rankData "A" "revenue" (some 1))
      ≠ ((branchFilter rankData "A").map (fun r => orZero r.Total)).sum := by
  have hA : arrayIndexOf "Alpha" = none := by decide
  have hB : arrayIndexOf "Beta" = none := by decide
  have hAm : ¬ ("Alpha" : String) ∈ objectPrototypeMembers := by decide
  have hBm : ¬ ("Beta" : String) ∈ objectPrototypeMembers := by decide
  have n1 : ("Alpha" : String) ≠ "Beta" := by decide
  have n4 : ("revenue" : String) ≠ "quantity" := by decide
  have n5 : ("revenue" : String) ≠ "margin" := by decide
  have heval : updateTopPerformersTable rankData "A" "revenue" (some 1)
      = [rankedAlpha] := by
    norm_num [rankData, rankedAlpha, updateTopPerformersTable, topProducts,
      aggregateProducts, aggregateStats, branchFilter, jsObjectValues,
      addRecord, updateStat, newStat, orZero, deriveProduct, hA, hB, hAm, hBm,
      n1, n4, n5, sortFieldOf, sortProducts, fieldVal, List.insertionSort,
      List.orderedInsert]
  have hne : updateTopPerformersTable rankData "A" "revenue" (some 1) ≠ [] := by
    rw [heval]
    simp
  refine ⟨hne, summary_over_displayed_entries rankData "A" "revenue" (some 1) hne, ?_⟩
  rw [heval]
  norm_num [summaryTotalRevenue, rankedAlpha, branchFilter, rankData, orZero]

/-- Counterexample to C1: the unrecognized sort key "popularity" is not
rejected; the pipeline silently produces the same nonempty ranking as the
"revenue" key. -/
theorem sortKey_no_error_counterexample :
    sortFieldOf "popularity" = SortField.total ∧
    updateTopPerformersTable rankData "A" "popularity" none
      = updateTopPerformersTable rankData "A" "revenue" none ∧
    (updateTopPerformersTable rankData "A" "popularity" none).length = 2 := by
  have hA : arrayIndexOf "Alpha" = none := by decide
  have hB : arrayIndexOf "Beta" = none := by decide
  have hAm : ¬ ("Alpha" : String) ∈ objectPrototypeMembers := by decide
  have hBm : ¬ ("Beta" : String) ∈ objectPrototypeMembers := by decide
  have n1 : ("Alpha" : String) ≠ "Beta" := by decide
  have n2 : ("popularity" : String) ≠ "quantity" := by decide
  have n3 : ("popularity" : String) ≠ "margin" := by decide
  have n4 : ("revenue" : String) ≠ "quantity" := by decide
  have n5 : ("revenue" : String) ≠ "margin" := by decide
  refine ⟨by simp [sortFieldOf, n2, n3], ?_, ?_⟩
  · norm_num [rankData, updateTopPerformersTable, topProducts,
      aggregateProducts, aggregateStats, branchFilter, jsObjectValues,
      addRecord, updateStat, newStat, orZero, deriveProduct, hA, hB, hAm, hBm,
      n1, n2, n3, n4, n5, sortFieldOf, sortProducts, fieldVal,
      List.insertionSort, List.orderedInsert]
  · norm_num [rankData, updateTopPerformersTable, topProducts,
      aggregateProducts, aggregateStats, branchFilter, jsObjectValues,
      addRecord, updateStat, newStat, orZero, deriveProduct, hA, hB, hAm, hBm,
      n1, n2, n3, n4, n5, sortFieldOf, sortProducts, fieldVal,
      List.insertionSort, List.orderedInsert]

/-- C1 as amended: every sort key other than "quantity" and "margin" —
including any unrecognized key — is silently mapped to the revenue field,
and the pipeline behaves exactly as with the "revenue" key; no
input-validation error is signalled. -/
theorem sortKey_silent_default (sortBy : String)
    (h1 : sortBy ≠ "quantity") (h2 : sortBy ≠ "margin") :
    sortFieldOf sortBy = SortField.total ∧
    ∀ (allData : List SalesRecord) (branch : String) (count : Option Nat),
      updateTopPerformersTable allData branch sortBy count
        = updateTopPerformersTable allData branch "revenue" count := by
  have hf : sortFieldOf sortBy = SortField.total := by
    simp [sortFieldOf, h1, h2]
  have hrev : sortFieldOf "revenue" = SortField.total := by decide
  refine ⟨hf, ?_⟩
  intro allData branch count
  unfold updateTopPerformersTable topProducts
  rw [hf, hrev]

/-- Witness for C1's amended claim at the key "popularity". -/
theorem sortKey_silent_default_witness :
    ("popularity" : String) ≠ "quantity" ∧
    ("popularity" : String) ≠ "margin" ∧
    sortFieldOf "popularity" = SortField.total ∧
    updateTopPerformersTable rankData "A" "popularity" (some 1)
      = updateTopPerformersTable rankData "A" "revenue" (some 1) :=
  ⟨by decide, by decide,
   (sortKey_silent_default "popularity" (by decide) (by decide)).1,
   (sortKey_silent_default "popularity" (by decide) (by decide)).2
     rankData "A" (some 1)⟩

/-- Counterexample to C8: with product names "10" and "2" first seen in
that order, `Object.values` enumerates the array-index keys in ascending
numeric order, so the aggregator's output order is ["2", "10"], not the
first-seen ["10", "2"]. -/
theorem aggregate_order_counterexample :
    (aggregateProducts numericNameData "A").map (fun p => p.Menu)
        = ["2", "10"] ∧
    firstSeenMenus (branchFilter numericNameData "A") = ["10", "2"] ∧
    ¬ (aggregateProducts numericNameData "A").map (fun p => p.Menu)
        = firstSeenMenus (branchFilter numericNameData "A") := by
  have h10 : arrayIndexOf "10" = some 10 := by decide
  have h2 : arrayIndexOf "2" = some 2 := by decide
  have h10m : ¬ ("10" : String) ∈ objectPrototypeMembers := by decide
  have h2m : ¬ ("2" : String) ∈ objectPrototypeMembers := by decide
  have n1 : ("10" : String) ≠ "2" := by decide
  have n2 : ("2" : String) ≠ "10" := by decide
  have e1 : (aggregateProducts numericNameData "A").map (fun p => p.Menu)
      = ["2", "10"] := by
    norm_num [numericNameData, aggregateProducts, aggregateStats,
      branchFilter, jsObjectValues, addRecord, updateStat, newStat, orZero,
      deriveProduct, h10, h2, h10m, h2m, n1, statIndexKey,
      List.insertionSort, List.orderedInsert]
  have e2 : firstSeenMenus (branchFilter numericNameData "A") = ["10", "2"] := by
    norm_num [numericNameData, firstSeenMenus, branchFilter, n1, n2]
  refine ⟨e1, e2, ?_⟩
  rw [e1, e2]
  simp [n2]

/-- C8 as amended: provided no product name of the branch is an
ECMAScript array-index string and none is an inherited
`Object.prototype` member name, the aggregator's output enumerates the
ProductAggregates in the first-seen order of each distinct product name
of the branch-filtered sequence. (Array-index names are instead
enumerated first in ascending numeric order, and prototype-member names
never produce an aggregate at all.) -/
theorem aggregate_firstSeen_order (allData : List SalesRecord)
    (branch : String)
    (h : ∀ r ∈ branchFilter allData branch,
      arrayIndexOf r.Menu = none ∧ ¬ r.Menu ∈ objectPrototypeMembers) :
    (aggregateProducts allData branch).map (fun p => p.Menu)
      = firstSeenMenus (branchFilter allData branch) := by
  have hpm : ∀ r ∈ branchFilter allData branch,
      ¬ r.Menu ∈ objectPrototypeMembers := fun r hr => (h r hr).2
  unfold aggregateProducts aggregateStats
  have hstats : ∀ s ∈ (branchFilter allData branch).foldl (addRecord branch) [],
      arrayIndexOf s.Menu = none := by
    intro s hs
    have hm : s.Menu ∈
        ((branchFilter allData branch).foldl (addRecord branch) []).map
          (fun s => s.Menu) := List.mem_map_of_mem _ hs
    rw [menus_eq_firstSeenMenus branch _ hpm] at hm
    rcases mem_firstSeenMenus _ s.Menu hm with ⟨r, hr, hrm⟩
    rw [← hrm]
    exact (h r hr).1
  rw [jsObjectValues_of_no_index _ hstats, List.map_map]
  have hcomp : ((fun p : Product => p.Menu) ∘ deriveProduct)
      = fun s : ProductStat => s.Menu := rfl
  rw [hcomp, menus_eq_firstSeenMenus branch _ hpm]

/-- Witness for C8's amended claim: with the non-numeric names "Alpha"
and "Beta" the output order is the first-seen order. -/
theorem aggregate_firstSeen_order_witness :
    (aggregateProducts rankData "A").map (fun p => p.Menu)
      = firstSeenMenus (branchFilter rankData "A") :=
  aggregate_firstSeen_order rankData "A" (by decide)

end ProductAnalysis
